import Mathlib

/-!
DAMASSMFL: rules engine of a 10×10 draughts board.

A shallow embedding of `Board.h`: the piece model, the grid `cells[SIZE][SIZE]`, the
bounds-checked accessors, the two legality predicates, `move` with promotion, the
capture-availability query and `init`.

Coordinates are C++ `int`s.  Every arithmetic expression of the engine is evaluated
after an `isInside` test on its operands (or on loop counters `0..9`), so all values
stay within `-2 .. 11` and no 32-bit overflow can occur; they are modelled by `Int`.
C++ integer division truncates toward zero and is modelled by `Int.tdiv`.

Reference parameters written by a function (`capX`, `capY`, `didCapture`,
`becameKing`) are modelled by passing the incoming value (where the function can
leave it untouched) and returning the outgoing value.
-/

set_option autoImplicit false

namespace DAMASSMFL

/-! ## Data model -/

/-- Colour of a cell: `enum class PieceColor { None, White, Black }`. -/
inductive PieceColor where
  | None
  | White
  | Black
  deriving DecidableEq

/-- Content of a cell: `struct Piece { PieceColor color; bool isKing; }`. -/
structure Piece where
  color : PieceColor
  isKing : Bool
  deriving DecidableEq

/-- The default-constructed piece `Piece()`: colour `None`, not a king. -/
def Piece.empty : Piece := ⟨PieceColor.None, false⟩

/-- Side length of the board: `static const int SIZE = 10`. -/
def SIZE : Nat := 10

/-- The grid `Piece cells[SIZE][SIZE]`, indexed `cells[x][y]`. -/
abbrev Board := Fin SIZE → Fin SIZE → Piece

/-- Raw array write `cells[x][y] = p`. -/
def write (b : Board) (x y : Int) (p : Piece) : Board :=
  fun i j => if (i.val : Int) = x ∧ (j.val : Int) = y then p else b i j

/-! ## `Board::init` -/

/-- Body of `Board::init`, one fold per `for` loop: clear every cell, put Black on the
cells with `(x + y) % 2 == 1` of rows 0..3, then White on those of rows
`SIZE - 4 .. SIZE - 1`.  The loop counters are non-negative, so `%` is the C++ one. -/
def init (b : Board) : Board :=
  let b1 := (List.range SIZE).foldl (fun acc y =>
    (List.range SIZE).foldl (fun acc x => write acc x y Piece.empty) acc) b
  let b2 := (List.range 4).foldl (fun acc y =>
    (List.range SIZE).foldl (fun acc x =>
      if (x + y) % 2 == 1 then write acc x y ⟨PieceColor.Black, false⟩ else acc) acc) b1
  (List.range' (SIZE - 4) 4).foldl (fun acc y =>
    (List.range SIZE).foldl (fun acc x =>
      if (x + y) % 2 == 1 then write acc x y ⟨PieceColor.White, false⟩ else acc) acc) b2

/-- The constructor `Board() { init(); }`; the array members are default-constructed
(`Piece()`) before `init` runs. -/
def Board.new : Board := init (fun _ _ => Piece.empty)

/-! ## Accessors -/

/-- Bounds test `isInside`. -/
def isInside (x y : Int) : Bool :=
  decide (x ≥ 0) && decide (x < SIZE) && decide (y ≥ 0) && decide (y < SIZE)

theorem isInside_iff (x y : Int) :
    isInside x y = true ↔ 0 ≤ x ∧ x < 10 ∧ 0 ≤ y ∧ y < 10 := by
  simp [isInside, SIZE, and_assoc]

theorem toNat_lt_of_isInside_left {x y : Int} (h : isInside x y = true) :
    x.toNat < SIZE := by
  have := (isInside_iff x y).1 h
  simp only [SIZE]; omega

theorem toNat_lt_of_isInside_right {x y : Int} (h : isInside x y = true) :
    y.toNat < SIZE := by
  have := (isInside_iff x y).1 h
  simp only [SIZE]; omega

/-- Bounds-checked read `get`: `Piece()` outside the board, `cells[x][y]` inside. -/
def get (b : Board) (x y : Int) : Piece :=
  if h : isInside x y = true then
    b ⟨x.toNat, toNat_lt_of_isInside_left h⟩ ⟨y.toNat, toNat_lt_of_isInside_right h⟩
  else Piece.empty

/-- Bounds-checked write `set`: a no-op outside the board. -/
def set (b : Board) (x y : Int) (p : Piece) : Board :=
  if isInside x y then write b x y p else b

/-- Colour mapping `opponentOf`. -/
def opponentOf (c : PieceColor) : PieceColor :=
  if c = PieceColor.White then PieceColor.Black
  else if c = PieceColor.Black then PieceColor.White
  else PieceColor.None

/-! ## Legality predicates -/

/-- Simple (non-capturing) move test `canSimpleMove`. -/
def canSimpleMove (b : Board) (fromX fromY toX toY : Int) (player : PieceColor) : Bool :=
  if !isInside fromX fromY || !isInside toX toY then false else
  let p := get b fromX fromY
  if p.color ≠ player then false else
  if (get b toX toY).color ≠ PieceColor.None then false else
  let dx := toX - fromX
  let dy := toY - fromY
  if dx.natAbs ≠ 1 ∨ dy.natAbs ≠ 1 then false else
  if !p.isKing ∧ dy ≠ (if p.color = PieceColor.White then -1 else 1) then false else
  true

/-- Capture test `canCaptureMove`.  The reference parameters `capX`, `capY` come in
with the values `capX`, `capY` and the triple returned is
`(result, capX after the call, capY after the call)`. -/
def canCaptureMove (b : Board) (fromX fromY toX toY : Int) (player : PieceColor)
    (capX capY : Int) : Bool × Int × Int :=
  if !isInside fromX fromY || !isInside toX toY then (false, capX, capY) else
  let p := get b fromX fromY
  if p.color ≠ player then (false, capX, capY) else
  if (get b toX toY).color ≠ PieceColor.None then (false, capX, capY) else
  let dx := toX - fromX
  let dy := toY - fromY
  if dx.natAbs ≠ 2 ∨ dy.natAbs ≠ 2 then (false, capX, capY) else
  let capX := (fromX + toX).tdiv 2
  let capY := (fromY + toY).tdiv 2
  let middle := get b capX capY
  if middle.color ≠ opponentOf player then (false, capX, capY) else
  if !p.isKing ∧ dy ≠ 2 * (if p.color = PieceColor.White then -1 else 1) then
    (false, capX, capY)
  else
    (true, capX, capY)

/-! ## `Board::move` -/

/-- Outcome of `move`: the returned flag, the board after the call and the two
output flags. -/
structure MoveResult where
  ok : Bool
  board : Board
  didCapture : Bool
  becameKing : Bool

/-- The promotion tail of `move` (the block after the comment `Coronación`), run on
the board `b` obtained after the relocation, with the value of `didCapture` reached
so far. -/
def coronacion (b : Board) (toX toY : Int) (didCapture : Bool) : MoveResult :=
  let moved := get b toX toY
  if !moved.isKing then
    if moved.color = PieceColor.White ∧ toY = 0 then
      ⟨true, set b toX toY ⟨moved.color, true⟩, didCapture, true⟩
    else if moved.color = PieceColor.Black ∧ toY = (SIZE : Int) - 1 then
      ⟨true, set b toX toY ⟨moved.color, true⟩, didCapture, true⟩
    else
      ⟨true, set b toX toY moved, didCapture, false⟩
  else
    ⟨true, b, didCapture, false⟩

/-- General move `move`.  Both output flags are cleared on entry, so their incoming
values are irrelevant.  The locals `capX`, `capY` are uninitialised in the source and
only read after `canCaptureMove` has assigned them; the model starts them at `0`. -/
def move (b : Board) (fromX fromY toX toY : Int) (player : PieceColor) : MoveResult :=
  if !isInside fromX fromY || !isInside toX toY then ⟨false, b, false, false⟩ else
  let p := get b fromX fromY
  if p.color ≠ player then ⟨false, b, false, false⟩ else
  if (get b toX toY).color ≠ PieceColor.None then ⟨false, b, false, false⟩ else
  let dx := toX - fromX
  let dy := toY - fromY
  if dx.natAbs = 2 ∧ dy.natAbs = 2 then
    let r := canCaptureMove b fromX fromY toX toY player 0 0
    if !r.1 then ⟨false, b, false, false⟩ else
    let b1 := set b r.2.1 r.2.2 Piece.empty
    let b2 := set b1 toX toY p
    let b3 := set b2 fromX fromY Piece.empty
    coronacion b3 toX toY true
  else if dx.natAbs = 1 ∧ dy.natAbs = 1 then
    if !canSimpleMove b fromX fromY toX toY player then ⟨false, b, false, false⟩ else
    let b1 := set b toX toY p
    let b2 := set b1 fromX fromY Piece.empty
    coronacion b2 toX toY false
  else
    ⟨false, b, false, false⟩

/-! ## `Board::hasCaptureFrom` -/

/-- The table `deltas` of `hasCaptureFrom`. -/
def deltas : List (Int × Int) := [(2, 2), (2, -2), (-2, 2), (-2, -2)]

/-- Capture-availability query `hasCaptureFrom`: the loop returns at the first
accepted jump, which for the side-effect-free `canCaptureMove` is `List.any`. -/
def hasCaptureFrom (b : Board) (x y : Int) : Bool :=
  if !isInside x y then false else
  let p := get b x y
  if p.color = PieceColor.None then false else
  let player := p.color
  deltas.any (fun d => (canCaptureMove b x y (x + d.1) (y + d.2) player 0 0).1)

/-! ## Auxiliary definitions used to state properties -/

/-- Number of cells of the grid whose colour is `c`. -/
def countColor (b : Board) (c : PieceColor) : Nat :=
  (Finset.univ.filter (fun s : Fin SIZE × Fin SIZE => (b s.1 s.2).color = c)).card

/-- Number of cells of the grid that hold a piece (colour other than `None`). -/
def countPieces (b : Board) : Nat :=
  (Finset.univ.filter
    (fun s : Fin SIZE × Fin SIZE => (b s.1 s.2).color ≠ PieceColor.None)).card

/-- Closed form of the opening position, cell by cell. -/
def initBoard : Board := fun i j =>
  if (i.val + j.val) % 2 = 1 ∧ j.val < 4 then ⟨PieceColor.Black, false⟩
  else if (i.val + j.val) % 2 = 1 ∧ 6 ≤ j.val then ⟨PieceColor.White, false⟩
  else Piece.empty

/-- The capture scenario: the opening position with one extra Black piece on (2,5),
between the White piece on (1,6) and the empty cell (3,4). -/
def captureScenario : Board := set Board.new 2 5 ⟨PieceColor.Black, false⟩

/-- A promotion scenario: a lone White man on (1,1) of an otherwise empty grid. -/
def promotionScenario : Board :=
  set (fun _ _ => Piece.empty) 1 1 ⟨PieceColor.White, false⟩

/-- A king scenario: a lone king of colour `c` on (4,4) of an otherwise empty grid. -/
def kingScenario (c : PieceColor) : Board :=
  set (fun _ _ => Piece.empty) 4 4 ⟨c, true⟩

/-! ## The turn coordinator of `main` -/

/-- The game state held by `main`: `board`, `currentPlayer`, `hasSelected`,
`selectedX`, `selectedY`. -/
structure Game where
  board : Board
  currentPlayer : PieceColor
  hasSelected : Bool
  selectedX : Int
  selectedY : Int

/-- The state `main` starts from: a constructed board, White to move, no selection,
`selectedX = selectedY = -1`. -/
def Game.initial : Game := ⟨Board.new, PieceColor.White, false, -1, -1⟩

/-- The mouse-click handler of `main` from the point where the click has been mapped
to the cell `(cellX, cellY)`: the range test on the cell, then either the selection of
an own piece or the attempt to move the selected piece.  Console output is left out. -/
def click (g : Game) (cellX cellY : Int) : Game :=
  if cellX ≥ 0 ∧ cellX < (SIZE : Int) ∧ cellY ≥ 0 ∧ cellY < (SIZE : Int) then
    if !g.hasSelected then
      let p := get g.board cellX cellY
      if p.color = g.currentPlayer then
        ⟨g.board, g.currentPlayer, true, cellX, cellY⟩
      else g
    else
      let r := move g.board g.selectedX g.selectedY cellX cellY g.currentPlayer
      if r.ok then
        if r.didCapture && hasCaptureFrom r.board cellX cellY then
          ⟨r.board, g.currentPlayer, true, cellX, cellY⟩
        else
          ⟨r.board,
            if g.currentPlayer = PieceColor.White then PieceColor.Black
            else PieceColor.White,
            false, -1, -1⟩
      else
        ⟨r.board, g.currentPlayer, false, -1, -1⟩
  else g

/-- The state reached from `g` after a sequence of clicks on cells. -/
def clicks (g : Game) (cs : List (Int × Int)) : Game :=
  cs.foldl (fun acc c => click acc c.1 c.2) g

/-- Dark-square invariant: every non-empty cell `cells[x][y]` has `x + y` odd. -/
def onDarkSquares (b : Board) : Prop :=
  ∀ i j : Fin SIZE, (b i j).color ≠ PieceColor.None → (i.val + j.val) % 2 = 1

instance (b : Board) : Decidable (onDarkSquares b) := by
  unfold onDarkSquares
  infer_instance

/-- No unpromoted piece on its promotion row: no non-king White piece on row 0 and no
non-king Black piece on row 9. -/
def noManOnLastRow (b : Board) : Prop :=
  ∀ i j : Fin SIZE,
    ¬((b i j).color = PieceColor.White ∧ (b i j).isKing = false ∧ j.val = 0) ∧
    ¬((b i j).color = PieceColor.Black ∧ (b i j).isKing = false ∧ j.val = 9)

instance (b : Board) : Decidable (noManOnLastRow b) := by
  unfold noManOnLastRow
  infer_instance

/-- Turn-coordinator invariant: the player to move is White or Black, and an active
selection is an in-range cell holding a piece of the player to move. -/
def Game.wellFormed (g : Game) : Prop :=
  (g.currentPlayer = PieceColor.White ∨ g.currentPlayer = PieceColor.Black) ∧
  (g.hasSelected = true →
    (0 ≤ g.selectedX ∧ g.selectedX < 10 ∧ 0 ≤ g.selectedY ∧ g.selectedY < 10) ∧
    (get g.board g.selectedX g.selectedY).color = g.currentPlayer)

instance (g : Game) : Decidable g.wellFormed := by
  unfold Game.wellFormed
  infer_instance

/-! ## Accessor lemmas -/

theorem get_write (b : Board) (x y x1 y1 : Int) (p : Piece) :
    get (write b x y p) x1 y1 =
      if isInside x1 y1 = true ∧ x1 = x ∧ y1 = y then p else get b x1 y1 := by
  unfold get write
  by_cases h : isInside x1 y1 = true
  · have hh := (isInside_iff x1 y1).1 h
    have e1 : ((x1.toNat : Nat) : Int) = x1 := Int.toNat_of_nonneg hh.1
    have e2 : ((y1.toNat : Nat) : Int) = y1 := Int.toNat_of_nonneg hh.2.2.1
    simp only [h, dif_pos, e1, e2, true_and]
  · simp [h]

theorem get_set (b : Board) (x y x1 y1 : Int) (p : Piece) :
    get (set b x y p) x1 y1 =
      if isInside x y = true ∧ x1 = x ∧ y1 = y then p else get b x1 y1 := by
  unfold set
  by_cases h : isInside x y = true
  · simp only [h, if_true, get_write, true_and]
    by_cases e : x1 = x ∧ y1 = y
    · obtain ⟨rfl, rfl⟩ := e
      simp [h]
    · simp [e]
  · simp [h]

theorem get_outside (b : Board) (x y : Int) (h : isInside x y = false) :
    get b x y = Piece.empty := by
  simp [get, h]

theorem board_ext (b c : Board) (h : ∀ x y : Int, get b x y = get c x y) : b = c := by
  funext i j
  have hin : isInside (i.val : Int) (j.val : Int) = true := by
    rw [isInside_iff]
    have hi := i.isLt
    have hj := j.isLt
    simp only [SIZE] at hi hj
    omega
  have := h i.val j.val
  simpa [get, hin] using this

theorem coronacion_ok (b : Board) (toX toY : Int) (d : Bool) :
    (coronacion b toX toY d).ok = true := by
  simp only [coronacion]
  split_ifs <;> rfl

theorem move_fail_board (b : Board) (fromX fromY toX toY : Int) (player : PieceColor)
    (h : (move b fromX fromY toX toY player).ok = false) :
    (move b fromX fromY toX toY player).board = b ∧
    (move b fromX fromY toX toY player).didCapture = false ∧
    (move b fromX fromY toX toY player).becameKing = false := by
  simp only [move] at h ⊢
  split_ifs at h ⊢
  all_goals first
    | exact ⟨rfl, rfl, rfl⟩
    | (rw [coronacion_ok] at h; exact absurd h (by decide))


theorem tdiv_two (a : Int) (h : 0 ≤ a) : a.tdiv 2 = a / 2 :=
  Int.tdiv_eq_ediv h (by decide)

theorem canSimpleMove_iff (b : Board) (fromX fromY toX toY : Int) (player : PieceColor) :
    canSimpleMove b fromX fromY toX toY player = true ↔
      isInside fromX fromY = true ∧ isInside toX toY = true ∧
      (get b fromX fromY).color = player ∧ (get b toX toY).color = PieceColor.None ∧
      (toX - fromX).natAbs = 1 ∧ (toY - fromY).natAbs = 1 ∧
      ((get b fromX fromY).isKing = true ∨
        toY - fromY = if (get b fromX fromY).color = PieceColor.White then -1 else 1) := by
  simp only [canSimpleMove]
  by_cases h1 : isInside fromX fromY = true <;> by_cases h2 : isInside toX toY = true <;>
    by_cases h3 : (get b fromX fromY).color = player <;>
    by_cases h4 : (get b toX toY).color = PieceColor.None <;>
    by_cases h5 : (toX - fromX).natAbs = 1 <;>
    by_cases h6 : (toY - fromY).natAbs = 1 <;>
    by_cases h7 : (get b fromX fromY).isKing = true <;>
    simp [h1, h2, h3, h4, h5, h6, h7]

theorem canCaptureMove_iff (b : Board) (fromX fromY toX toY : Int) (player : PieceColor)
    (c0 c1 : Int) :
    (canCaptureMove b fromX fromY toX toY player c0 c1).1 = true ↔
      isInside fromX fromY = true ∧ isInside toX toY = true ∧
      (get b fromX fromY).color = player ∧ (get b toX toY).color = PieceColor.None ∧
      (toX - fromX).natAbs = 2 ∧ (toY - fromY).natAbs = 2 ∧
      (get b ((fromX + toX).tdiv 2) ((fromY + toY).tdiv 2)).color = opponentOf player ∧
      ((get b fromX fromY).isKing = true ∨
        toY - fromY = 2 * if (get b fromX fromY).color = PieceColor.White then -1 else 1) := by
  simp only [canCaptureMove]
  by_cases h1 : isInside fromX fromY = true
  swap
  · simp [h1]
  by_cases h2 : isInside toX toY = true
  swap
  · simp [h1, h2]
  by_cases h3 : (get b fromX fromY).color = player
  swap
  · simp [h1, h2, h3]
  by_cases h4 : (get b toX toY).color = PieceColor.None
  swap
  · simp [h1, h2, h3, h4]
  by_cases h5 : (toX - fromX).natAbs = 2
  swap
  · simp [h1, h2, h3, h4, h5]
  by_cases h6 : (toY - fromY).natAbs = 2
  swap
  · simp [h1, h2, h3, h4, h5, h6]
  by_cases h8 : (get b ((fromX + toX).tdiv 2) ((fromY + toY).tdiv 2)).color
      = opponentOf player
  swap
  · simp [h1, h2, h3, h4, h5, h6, h8]
  by_cases h7 : (get b fromX fromY).isKing = true
  · simp [h1, h2, h3, h4, h5, h6, h7, h8]
  · simp only [h1, h2, h3, h4, h5, h6, h7, h8]
    split_ifs <;> simp_all

theorem canCaptureMove_cap (b : Board) (fromX fromY toX toY : Int) (player : PieceColor)
    (c0 c1 : Int) (h : (canCaptureMove b fromX fromY toX toY player c0 c1).1 = true) :
    (canCaptureMove b fromX fromY toX toY player c0 c1).2 =
      ((fromX + toX).tdiv 2, (fromY + toY).tdiv 2) := by
  simp only [canCaptureMove] at h ⊢
  split_ifs at h ⊢ <;> rfl


theorem canCaptureMove_fst_indep (b : Board) (fromX fromY toX toY : Int)
    (player : PieceColor) (c0 c1 d0 d1 : Int) :
    (canCaptureMove b fromX fromY toX toY player c0 c1).1 =
      (canCaptureMove b fromX fromY toX toY player d0 d1).1 := by
  rw [Bool.eq_iff_iff, canCaptureMove_iff, canCaptureMove_iff]

theorem coronacion_didCapture (b : Board) (toX toY : Int) (d : Bool) :
    (coronacion b toX toY d).didCapture = d := by
  simp only [coronacion]
  split_ifs <;> rfl

theorem coronacion_becameKing (b : Board) (toX toY : Int) (d : Bool) :
    (coronacion b toX toY d).becameKing = true ↔
      (get b toX toY).isKing = false ∧
        (((get b toX toY).color = PieceColor.White ∧ toY = 0) ∨
          ((get b toX toY).color = PieceColor.Black ∧ toY = 9)) := by
  rcases hm : get b toX toY with ⟨c, k⟩
  simp only [coronacion, SIZE, hm]
  cases k <;> cases c <;> by_cases h0 : toY = 0 <;> by_cases h9 : toY = 9 <;>
    simp [h0, h9]

theorem coronacion_get (b : Board) (toX toY : Int) (d : Bool)
    (hin : isInside toX toY = true) (x y : Int) :
    get (coronacion b toX toY d).board x y =
      if x = toX ∧ y = toY then
        ⟨(get b toX toY).color,
          (get b toX toY).isKing || (coronacion b toX toY d).becameKing⟩
      else get b x y := by
  rcases hm : get b toX toY with ⟨c, k⟩
  by_cases hxy : x = toX ∧ y = toY
  · obtain ⟨rfl, rfl⟩ := hxy
    simp only [coronacion, hm]
    split_ifs <;> simp_all [get_set]
  · simp only [coronacion, hm]
    split_ifs <;> simp_all [get_set]


theorem move_of_capture (b : Board) (fromX fromY toX toY : Int) (player : PieceColor)
    (h : (canCaptureMove b fromX fromY toX toY player 0 0).1 = true) :
    move b fromX fromY toX toY player =
      coronacion
        (set (set (set b ((fromX + toX).tdiv 2) ((fromY + toY).tdiv 2) Piece.empty)
          toX toY (get b fromX fromY)) fromX fromY Piece.empty) toX toY true := by
  have hc := canCaptureMove_cap b fromX fromY toX toY player 0 0 h
  obtain ⟨h1, h2, h3, h4, h5, h6, -, -⟩ := (canCaptureMove_iff _ _ _ _ _ _ _ _).1 h
  simp only [move, h, hc, h1, h2, h3, h4, h5, h6]
  simp

theorem move_of_simple (b : Board) (fromX fromY toX toY : Int) (player : PieceColor)
    (h : canSimpleMove b fromX fromY toX toY player = true) :
    move b fromX fromY toX toY player =
      coronacion (set (set b toX toY (get b fromX fromY)) fromX fromY Piece.empty)
        toX toY false := by
  obtain ⟨h1, h2, h3, h4, h5, h6, -⟩ := (canSimpleMove_iff _ _ _ _ _ _).1 h
  simp only [move, h, h1, h2, h3, h4, h5, h6]
  simp

theorem move_of_neither (b : Board) (fromX fromY toX toY : Int) (player : PieceColor)
    (hs : canSimpleMove b fromX fromY toX toY player = false)
    (hc : (canCaptureMove b fromX fromY toX toY player 0 0).1 = false) :
    move b fromX fromY toX toY player = ⟨false, b, false, false⟩ := by
  simp only [move, hs, hc]
  split_ifs <;> first | rfl | simp_all


/-! ## Geometry of a jump -/

theorem jump_mid (f t : Int) (hf : 0 ≤ f ∧ f < 10) (ht : 0 ≤ t ∧ t < 10)
    (h : (t - f).natAbs = 2) :
    (f + t).tdiv 2 = f + (t - f).tdiv 2 ∧ 0 ≤ (f + t).tdiv 2 ∧ (f + t).tdiv 2 < 10 ∧
      (f + t).tdiv 2 ≠ f ∧ (f + t).tdiv 2 ≠ t := by
  rw [tdiv_two (f + t) (by omega)]
  have h2 : t - f = 2 ∨ t - f = -2 := by omega
  have d1 : Int.tdiv 2 2 = 1 := by decide
  have d2 : Int.tdiv (-2) 2 = -1 := by decide
  rcases h2 with e | e <;> rw [e] <;> simp only [d1, d2] <;> omega

theorem canSimple_canCapture_excl (b : Board) (fromX fromY toX toY : Int)
    (player : PieceColor) (c0 c1 : Int)
    (h : canSimpleMove b fromX fromY toX toY player = true) :
    (canCaptureMove b fromX fromY toX toY player c0 c1).1 = false := by
  obtain ⟨-, -, -, -, h5, -⟩ := (canSimpleMove_iff _ _ _ _ _ _).1 h
  rw [← Bool.not_eq_true, canCaptureMove_iff]
  rintro ⟨-, -, -, -, h5', -⟩
  omega

theorem move_ok_cases (b : Board) (fromX fromY toX toY : Int) (player : PieceColor)
    (h : (move b fromX fromY toX toY player).ok = true) :
    ((canCaptureMove b fromX fromY toX toY player 0 0).1 = true ∧
        (move b fromX fromY toX toY player).didCapture = true) ∨
      (canSimpleMove b fromX fromY toX toY player = true ∧
        (canCaptureMove b fromX fromY toX toY player 0 0).1 = false ∧
        (move b fromX fromY toX toY player).didCapture = false) := by
  by_cases hc : (canCaptureMove b fromX fromY toX toY player 0 0).1 = true
  · left
    exact ⟨hc, by rw [move_of_capture _ _ _ _ _ _ hc, coronacion_didCapture]⟩
  · by_cases hs : canSimpleMove b fromX fromY toX toY player = true
    · right
      refine ⟨hs, by simpa using hc, ?_⟩
      rw [move_of_simple _ _ _ _ _ _ hs, coronacion_didCapture]
    · rw [move_of_neither _ _ _ _ _ _ (by simpa using hs) (by simpa using hc)] at h
      exact absurd h Bool.false_ne_true


/-! ## The board after an accepted move -/

theorem move_ok_becameKing (b : Board) (fromX fromY toX toY : Int) (player : PieceColor)
    (h : (move b fromX fromY toX toY player).ok = true) :
    (move b fromX fromY toX toY player).becameKing = true ↔
      (get b fromX fromY).isKing = false ∧
        (((get b fromX fromY).color = PieceColor.White ∧ toY = 0) ∨
          ((get b fromX fromY).color = PieceColor.Black ∧ toY = 9)) := by
  rcases move_ok_cases b fromX fromY toX toY player h with ⟨hc, -⟩ | ⟨hs, -, -⟩
  · obtain ⟨h1, h2, -, -, h5, h6, -, -⟩ := (canCaptureMove_iff _ _ _ _ _ _ _ _).1 hc
    have hne : toX ≠ fromX := by omega
    rw [move_of_capture _ _ _ _ _ _ hc, coronacion_becameKing]
    simp [get_set, h1, h2, hne]
  · obtain ⟨h1, h2, -, -, h5, h6, -⟩ := (canSimpleMove_iff _ _ _ _ _ _).1 hs
    have hne : toX ≠ fromX := by omega
    rw [move_of_simple _ _ _ _ _ _ hs, coronacion_becameKing]
    simp [get_set, h1, h2, hne]

theorem move_ok_get (b : Board) (fromX fromY toX toY : Int) (player : PieceColor)
    (h : (move b fromX fromY toX toY player).ok = true) (x y : Int) :
    get (move b fromX fromY toX toY player).board x y =
      if x = toX ∧ y = toY then
        ⟨(get b fromX fromY).color,
          (get b fromX fromY).isKing || (move b fromX fromY toX toY player).becameKing⟩
      else if x = fromX ∧ y = fromY then Piece.empty
      else if (move b fromX fromY toX toY player).didCapture = true ∧
          x = (fromX + toX).tdiv 2 ∧ y = (fromY + toY).tdiv 2 then Piece.empty
      else get b x y := by
  rcases move_ok_cases b fromX fromY toX toY player h with ⟨hc, hd⟩ | ⟨hs, -, hd⟩
  · obtain ⟨h1, h2, -, -, h5, h6, -, -⟩ := (canCaptureMove_iff _ _ _ _ _ _ _ _).1 hc
    have hne : toX ≠ fromX := by omega
    have i1 := (isInside_iff _ _).1 h1
    have i2 := (isInside_iff _ _).1 h2
    obtain ⟨-, m1, m2, -, -⟩ := jump_mid fromX toX ⟨i1.1, i1.2.1⟩ ⟨i2.1, i2.2.1⟩ h5
    obtain ⟨-, m3, m4, -, -⟩ := jump_mid fromY toY ⟨i1.2.2.1, i1.2.2.2⟩ ⟨i2.2.2.1, i2.2.2.2⟩ h6
    have hm : isInside ((fromX + toX).tdiv 2) ((fromY + toY).tdiv 2) = true :=
      (isInside_iff _ _).2 ⟨m1, m2, m3, m4⟩
    rw [hd]
    rw [move_of_capture _ _ _ _ _ _ hc, coronacion_get _ _ _ _ h2]
    simp only [get_set, h1, h2, hm, true_and]
    by_cases e1 : x = toX ∧ y = toY
    · simp [e1, hne]
    · by_cases e2 : x = fromX ∧ y = fromY <;> simp [e1, e2, hne, hne.symm]
  · obtain ⟨h1, h2, -, -, h5, h6, -⟩ := (canSimpleMove_iff _ _ _ _ _ _).1 hs
    have hne : toX ≠ fromX := by omega
    rw [hd]
    rw [move_of_simple _ _ _ _ _ _ hs, coronacion_get _ _ _ _ h2]
    simp only [get_set, h1, h2, true_and]
    by_cases e1 : x = toX ∧ y = toY
    · simp [e1, hne]
    · by_cases e2 : x = fromX ∧ y = fromY <;> simp [e1, e2, hne, hne.symm]


/-! ## The opening position -/

set_option maxRecDepth 100000 in
theorem init_eq (b : Board) : init b = initBoard := by
  funext i j
  fin_cases i <;> fin_cases j <;> rfl

theorem get_initBoard (x y : Int) (hx : 0 ≤ x ∧ x < 10) (hy : 0 ≤ y ∧ y < 10) :
    get initBoard x y =
      if (x + y) % 2 = 1 ∧ y ≤ 3 then ⟨PieceColor.Black, false⟩
      else if (x + y) % 2 = 1 ∧ 6 ≤ y then ⟨PieceColor.White, false⟩
      else ⟨PieceColor.None, false⟩ := by
  have hin : isInside x y = true := (isInside_iff x y).2 ⟨hx.1, hx.2, hy.1, hy.2⟩
  obtain ⟨n, rfl⟩ := Int.eq_ofNat_of_zero_le hx.1
  obtain ⟨m, rfl⟩ := Int.eq_ofNat_of_zero_le hy.1
  simp only [get, hin, dif_pos, initBoard, Int.toNat_ofNat, Piece.empty]
  have e1 : ((n : Int) + (m : Int)) % 2 = 1 ↔ (n + m) % 2 = 1 := by omega
  have e2 : (m : Int) ≤ 3 ↔ m < 4 := by omega
  have e3 : (6 : Int) ≤ (m : Int) ↔ 6 ≤ m := by omega
  simp only [e1, e2, e3]


/-! ## Properties of `move` -/

/-- C1: when `move` returns failure the board after the call is the board before the
call (every cell unchanged) and both output flags `didCapture` and `becameKing` are
false, for arbitrary integer coordinates and any player value. -/
theorem move_failure_no_mutation (b : Board) (fromX fromY toX toY : Int)
    (player : PieceColor) (h : (move b fromX fromY toX toY player).ok = false) :
    (move b fromX fromY toX toY player).board = b ∧
    (∀ x y : Int, get (move b fromX fromY toX toY player).board x y = get b x y) ∧
    (move b fromX fromY toX toY player).didCapture = false ∧
    (move b fromX fromY toX toY player).becameKing = false := by
  obtain ⟨h1, h2, h3⟩ := move_fail_board b fromX fromY toX toY player h
  exact ⟨h1, fun x y => by rw [h1], h2, h3⟩

set_option maxRecDepth 100000 in
/-- Witness for C1: the three-square diagonal (1,6)→(4,3) on the opening position. -/
theorem move_failure_no_mutation_witness :
    (move Board.new 1 6 4 3 PieceColor.White).ok = false ∧
    (move Board.new 1 6 4 3 PieceColor.White).board = Board.new ∧
    (move Board.new 1 6 4 3 PieceColor.White).didCapture = false ∧
    (move Board.new 1 6 4 3 PieceColor.White).becameKing = false :=
  have h : (move Board.new 1 6 4 3 PieceColor.White).ok = false := by decide
  ⟨h, (move_failure_no_mutation Board.new 1 6 4 3 PieceColor.White h).1,
    (move_failure_no_mutation Board.new 1 6 4 3 PieceColor.White h).2.2⟩

/-- C2: after a successful `move` the destination cell has the colour the source cell
had before the call, its king flag is the pre-move king flag unless `becameKing` is
true (then it is a king), and the source cell is empty (colour `None`, not king). -/
theorem move_success_relocates (b : Board) (fromX fromY toX toY : Int)
    (player : PieceColor) (h : (move b fromX fromY toX toY player).ok = true) :
    (get (move b fromX fromY toX toY player).board toX toY).color =
      (get b fromX fromY).color ∧
    (get (move b fromX fromY toX toY player).board toX toY).isKing =
      (if (move b fromX fromY toX toY player).becameKing = true then true
        else (get b fromX fromY).isKing) ∧
    get (move b fromX fromY toX toY player).board fromX fromY =
      ⟨PieceColor.None, false⟩ := by
  have hne : ¬(fromX = toX ∧ fromY = toY) := by
    rcases move_ok_cases b fromX fromY toX toY player h with ⟨hc, -⟩ | ⟨hs, -, -⟩
    · obtain ⟨-, -, -, -, h5, -⟩ := (canCaptureMove_iff _ _ _ _ _ _ _ _).1 hc
      omega
    · obtain ⟨-, -, -, -, h5, -⟩ := (canSimpleMove_iff _ _ _ _ _ _).1 hs
      omega
  refine ⟨?_, ?_, ?_⟩
  · rw [move_ok_get b fromX fromY toX toY player h]
    simp
  · rw [move_ok_get b fromX fromY toX toY player h]
    cases (move b fromX fromY toX toY player).becameKing <;> simp
  · rw [move_ok_get b fromX fromY toX toY player h]
    simp [hne, Piece.empty]

set_option maxRecDepth 100000 in
/-- Witness for C2: the simple move (1,6)→(2,5) of White on the opening position. -/
theorem move_success_relocates_witness :
    (move Board.new 1 6 2 5 PieceColor.White).ok = true ∧
    (get (move Board.new 1 6 2 5 PieceColor.White).board 2 5).color =
      (get Board.new 1 6).color ∧
    get (move Board.new 1 6 2 5 PieceColor.White).board 1 6 = ⟨PieceColor.None, false⟩ :=
  have h : (move Board.new 1 6 2 5 PieceColor.White).ok = true := by decide
  ⟨h, (move_success_relocates Board.new 1 6 2 5 PieceColor.White h).1,
    (move_success_relocates Board.new 1 6 2 5 PieceColor.White h).2.2⟩

/-- C3: after a successful `move`, if `didCapture` is true the midpoint cell
`((fromX+toX)/2, (fromY+toY)/2)` is empty and every cell other than source,
destination and midpoint is unchanged; if `didCapture` is false every cell other than
source and destination is unchanged. -/
theorem move_success_frame (b : Board) (fromX fromY toX toY : Int)
    (player : PieceColor) (h : (move b fromX fromY toX toY player).ok = true) :
    ((move b fromX fromY toX toY player).didCapture = true →
      get (move b fromX fromY toX toY player).board
          ((fromX + toX).tdiv 2) ((fromY + toY).tdiv 2) = ⟨PieceColor.None, false⟩ ∧
      ∀ x y : Int, ¬(x = fromX ∧ y = fromY) → ¬(x = toX ∧ y = toY) →
        ¬(x = (fromX + toX).tdiv 2 ∧ y = (fromY + toY).tdiv 2) →
        get (move b fromX fromY toX toY player).board x y = get b x y) ∧
    ((move b fromX fromY toX toY player).didCapture = false →
      ∀ x y : Int, ¬(x = fromX ∧ y = fromY) → ¬(x = toX ∧ y = toY) →
        get (move b fromX fromY toX toY player).board x y = get b x y) := by
  constructor
  · intro hd
    have hc : (canCaptureMove b fromX fromY toX toY player 0 0).1 = true := by
      rcases move_ok_cases b fromX fromY toX toY player h with ⟨hc, -⟩ | ⟨-, -, hd'⟩
      · exact hc
      · rw [hd] at hd'
        exact absurd hd' (by decide)
    obtain ⟨h1, h2, -, -, h5, h6, -, -⟩ := (canCaptureMove_iff _ _ _ _ _ _ _ _).1 hc
    have i1 := (isInside_iff _ _).1 h1
    have i2 := (isInside_iff _ _).1 h2
    obtain ⟨-, -, -, m1, m2⟩ := jump_mid fromX toX ⟨i1.1, i1.2.1⟩ ⟨i2.1, i2.2.1⟩ h5
    refine ⟨?_, ?_⟩
    · rw [move_ok_get b fromX fromY toX toY player h]
      simp [hd, m1, m2, Piece.empty]
    · intro x y e1 e2 e3
      rw [move_ok_get b fromX fromY toX toY player h]
      simp [e1, e2, e3]
  · intro hd x y e1 e2
    rw [move_ok_get b fromX fromY toX toY player h]
    simp [e1, e2, hd]

set_option maxRecDepth 100000 in
/-- Witness for C3: on the capture scenario White jumps (1,6)→(3,4) over the Black
piece on (2,5); the jumped cell is emptied and the far cell (0,1) is untouched. -/
theorem move_success_frame_witness :
    (move captureScenario 1 6 3 4 PieceColor.White).ok = true ∧
    (move captureScenario 1 6 3 4 PieceColor.White).didCapture = true ∧
    get (move captureScenario 1 6 3 4 PieceColor.White).board 2 5 =
      ⟨PieceColor.None, false⟩ ∧
    get (move captureScenario 1 6 3 4 PieceColor.White).board 0 1 =
      get captureScenario 0 1 :=
  have h : (move captureScenario 1 6 3 4 PieceColor.White).ok = true := by decide
  have hd : (move captureScenario 1 6 3 4 PieceColor.White).didCapture = true := by
    decide
  ⟨h, hd, ((move_success_frame captureScenario 1 6 3 4 PieceColor.White h).1 hd).1,
    ((move_success_frame captureScenario 1 6 3 4 PieceColor.White h).1 hd).2 0 1
      (by decide) (by decide) (by decide)⟩

/-- C4: after a successful `move`, `becameKing` is true exactly when the source piece
was not a king and the destination row is the opponent's home row (`toY = 0` for a
White piece, `toY = 9` for a Black piece); if `becameKing` is true the destination
cell holds a king; a piece that was already a king never yields `becameKing`. -/
theorem move_success_promotion (b : Board) (fromX fromY toX toY : Int)
    (player : PieceColor) (h : (move b fromX fromY toX toY player).ok = true) :
    ((move b fromX fromY toX toY player).becameKing = true ↔
      (get b fromX fromY).isKing = false ∧
        (((get b fromX fromY).color = PieceColor.White ∧ toY = 0) ∨
          ((get b fromX fromY).color = PieceColor.Black ∧ toY = 9))) ∧
    ((move b fromX fromY toX toY player).becameKing = true →
      (get (move b fromX fromY toX toY player).board toX toY).isKing = true) ∧
    ((get b fromX fromY).isKing = true →
      (move b fromX fromY toX toY player).becameKing = false) := by
  have hk := move_ok_becameKing b fromX fromY toX toY player h
  refine ⟨hk, ?_, ?_⟩
  · intro hb
    rw [move_ok_get b fromX fromY toX toY player h]
    simp [hb]
  · intro hking
    rw [← Bool.not_eq_true, hk]
    simp [hking]

set_option maxRecDepth 100000 in
/-- Witness for C4: the White man on (1,1) of the promotion scenario steps to (2,0)
and is crowned. -/
theorem move_success_promotion_witness :
    (move promotionScenario 1 1 2 0 PieceColor.White).ok = true ∧
    (move promotionScenario 1 1 2 0 PieceColor.White).becameKing = true ∧
    (get (move promotionScenario 1 1 2 0 PieceColor.White).board 2 0).isKing = true :=
  have h : (move promotionScenario 1 1 2 0 PieceColor.White).ok = true := by decide
  have hb : (move promotionScenario 1 1 2 0 PieceColor.White).becameKing = true :=
    (move_success_promotion promotionScenario 1 1 2 0 PieceColor.White h).1.2
      ⟨by decide, Or.inl ⟨by decide, rfl⟩⟩
  ⟨h, hb, (move_success_promotion promotionScenario 1 1 2 0 PieceColor.White h).2.1 hb⟩


theorem forward_jump_iff (player : PieceColor)
    (hp : player = PieceColor.White ∨ player = PieceColor.Black) (d : Int) :
    (d = 2 * if player = PieceColor.White then -1 else 1) ↔
      (player = PieceColor.White ∧ d = -2) ∨ (player = PieceColor.Black ∧ d = 2) := by
  rcases hp with rfl | rfl <;> simp

/-! ## Properties of the legality predicates -/

/-- C5: for a player in {White, Black}, `canSimpleMove` returns true exactly when both
cells are in bounds, the source cell holds a piece of the player's colour, the
destination cell is empty, `|toX-fromX| = 1` and `|toY-fromY| = 1`, and the source
piece is a king or `toY-fromY` is the colour's forward step (-1 for White, +1 for
Black). -/
theorem canSimpleMove_spec (b : Board) (fromX fromY toX toY : Int)
    (player : PieceColor)
    (hp : player = PieceColor.White ∨ player = PieceColor.Black) :
    canSimpleMove b fromX fromY toX toY player = true ↔
      (0 ≤ fromX ∧ fromX < 10 ∧ 0 ≤ fromY ∧ fromY < 10) ∧
      (0 ≤ toX ∧ toX < 10 ∧ 0 ≤ toY ∧ toY < 10) ∧
      (get b fromX fromY).color = player ∧
      (get b toX toY).color = PieceColor.None ∧
      |toX - fromX| = 1 ∧ |toY - fromY| = 1 ∧
      ((get b fromX fromY).isKing = true ∨
        (player = PieceColor.White ∧ toY - fromY = -1) ∨
        (player = PieceColor.Black ∧ toY - fromY = 1)) := by
  rw [canSimpleMove_iff, isInside_iff, isInside_iff]
  have a1 : |toX - fromX| = 1 ↔ (toX - fromX).natAbs = 1 := by
    rw [Int.abs_eq_natAbs]; omega
  have a2 : |toY - fromY| = 1 ↔ (toY - fromY).natAbs = 1 := by
    rw [Int.abs_eq_natAbs]; omega
  rw [a1, a2]
  constructor
  · rintro ⟨h1, h2, h3, h4, h5, h6, h7⟩
    refine ⟨h1, h2, h3, h4, h5, h6, ?_⟩
    rw [h3] at h7
    rcases hp with rfl | rfl <;> simpa using h7
  · rintro ⟨h1, h2, h3, h4, h5, h6, h7⟩
    refine ⟨h1, h2, h3, h4, h5, h6, ?_⟩
    rw [h3]
    rcases hp with rfl | rfl <;> simpa using h7

set_option maxRecDepth 100000 in
/-- Witness for C5: White may step (1,6)→(2,5) on the opening position. -/
theorem canSimpleMove_spec_witness :
    canSimpleMove Board.new 1 6 2 5 PieceColor.White = true ∧
    (get Board.new 1 6).color = PieceColor.White ∧
    (get Board.new 2 5).color = PieceColor.None :=
  have h : canSimpleMove Board.new 1 6 2 5 PieceColor.White = true := by decide
  ⟨h, ((canSimpleMove_spec Board.new 1 6 2 5 PieceColor.White (Or.inl rfl)).1 h).2.2.1,
    ((canSimpleMove_spec Board.new 1 6 2 5 PieceColor.White (Or.inl rfl)).1 h).2.2.2.1⟩

/-- C6: for a player in {White, Black}, `canCaptureMove` returns true exactly when
both cells are in bounds, the source cell holds a piece of the player's colour, the
destination cell is empty, `|toX-fromX| = 2` and `|toY-fromY| = 2`, the midpoint cell
holds a piece of the opponent's colour, and the source piece is a king or
`toY-fromY` is twice the colour's forward step (-2 for White, +2 for Black).  When it
returns true the reported cell `(capX, capY)` is the midpoint
`(fromX+(toX-fromX)/2, fromY+(toY-fromY)/2)` and lies in bounds. -/
theorem canCaptureMove_spec (b : Board) (fromX fromY toX toY : Int)
    (player : PieceColor) (c0 c1 : Int)
    (hp : player = PieceColor.White ∨ player = PieceColor.Black) :
    ((canCaptureMove b fromX fromY toX toY player c0 c1).1 = true ↔
      (0 ≤ fromX ∧ fromX < 10 ∧ 0 ≤ fromY ∧ fromY < 10) ∧
      (0 ≤ toX ∧ toX < 10 ∧ 0 ≤ toY ∧ toY < 10) ∧
      (get b fromX fromY).color = player ∧
      (get b toX toY).color = PieceColor.None ∧
      |toX - fromX| = 2 ∧ |toY - fromY| = 2 ∧
      ((player = PieceColor.White ∧
          (get b (fromX + (toX - fromX).tdiv 2) (fromY + (toY - fromY).tdiv 2)).color
            = PieceColor.Black) ∨
        (player = PieceColor.Black ∧
          (get b (fromX + (toX - fromX).tdiv 2) (fromY + (toY - fromY).tdiv 2)).color
            = PieceColor.White)) ∧
      ((get b fromX fromY).isKing = true ∨
        (player = PieceColor.White ∧ toY - fromY = -2) ∨
        (player = PieceColor.Black ∧ toY - fromY = 2))) ∧
    ((canCaptureMove b fromX fromY toX toY player c0 c1).1 = true →
      (canCaptureMove b fromX fromY toX toY player c0 c1).2.1 =
        fromX + (toX - fromX).tdiv 2 ∧
      (canCaptureMove b fromX fromY toX toY player c0 c1).2.2 =
        fromY + (toY - fromY).tdiv 2 ∧
      0 ≤ (canCaptureMove b fromX fromY toX toY player c0 c1).2.1 ∧
      (canCaptureMove b fromX fromY toX toY player c0 c1).2.1 < 10 ∧
      0 ≤ (canCaptureMove b fromX fromY toX toY player c0 c1).2.2 ∧
      (canCaptureMove b fromX fromY toX toY player c0 c1).2.2 < 10) := by
  have a1 : |toX - fromX| = 2 ↔ (toX - fromX).natAbs = 2 := by
    rw [Int.abs_eq_natAbs]; omega
  have a2 : |toY - fromY| = 2 ↔ (toY - fromY).natAbs = 2 := by
    rw [Int.abs_eq_natAbs]; omega
  constructor
  · rw [canCaptureMove_iff, isInside_iff, isInside_iff, a1, a2]
    constructor
    · rintro ⟨h1, h2, h3, h4, h5, h6, h7, h8⟩
      obtain ⟨mx, -⟩ := jump_mid fromX toX ⟨h1.1, h1.2.1⟩ ⟨h2.1, h2.2.1⟩ h5
      obtain ⟨my, -⟩ := jump_mid fromY toY ⟨h1.2.2.1, h1.2.2.2⟩ ⟨h2.2.2.1, h2.2.2.2⟩ h6
      rw [mx, my] at h7
      refine ⟨h1, h2, h3, h4, h5, h6, ?_, ?_⟩
      · rcases hp with rfl | rfl <;> simpa [opponentOf] using h7
      · rw [h3, forward_jump_iff player hp] at h8
        exact h8
    · rintro ⟨h1, h2, h3, h4, h5, h6, h7, h8⟩
      obtain ⟨mx, -⟩ := jump_mid fromX toX ⟨h1.1, h1.2.1⟩ ⟨h2.1, h2.2.1⟩ h5
      obtain ⟨my, -⟩ := jump_mid fromY toY ⟨h1.2.2.1, h1.2.2.2⟩ ⟨h2.2.2.1, h2.2.2.2⟩ h6
      refine ⟨h1, h2, h3, h4, h5, h6, ?_, ?_⟩
      · rw [mx, my]
        rcases hp with rfl | rfl <;> simpa [opponentOf] using h7
      · rw [h3, forward_jump_iff player hp]
        exact h8
  · intro h
    have hc := canCaptureMove_cap b fromX fromY toX toY player c0 c1 h
    obtain ⟨h1, h2, -, -, h5, h6, -, -⟩ := (canCaptureMove_iff _ _ _ _ _ _ _ _).1 h
    have i1 := (isInside_iff _ _).1 h1
    have i2 := (isInside_iff _ _).1 h2
    obtain ⟨mx, m1, m2, -, -⟩ := jump_mid fromX toX ⟨i1.1, i1.2.1⟩ ⟨i2.1, i2.2.1⟩ h5
    obtain ⟨my, m3, m4, -, -⟩ :=
      jump_mid fromY toY ⟨i1.2.2.1, i1.2.2.2⟩ ⟨i2.2.2.1, i2.2.2.2⟩ h6
    rw [hc]
    exact ⟨mx, my, m1, m2, m3, m4⟩


set_option maxRecDepth 100000 in
/-- Witness for C6: on the capture scenario White may jump (1,6)→(3,4); the reported
cell is the midpoint. -/
theorem canCaptureMove_spec_witness :
    (canCaptureMove captureScenario 1 6 3 4 PieceColor.White 0 0).1 = true ∧
    (canCaptureMove captureScenario 1 6 3 4 PieceColor.White 0 0).2.1 =
      1 + (3 - 1 : Int).tdiv 2 ∧
    (canCaptureMove captureScenario 1 6 3 4 PieceColor.White 0 0).2.2 =
      6 + (4 - 6 : Int).tdiv 2 :=
  have h : (canCaptureMove captureScenario 1 6 3 4 PieceColor.White 0 0).1 = true := by
    decide
  ⟨h,
    ((canCaptureMove_spec captureScenario 1 6 3 4 PieceColor.White 0 0 (Or.inl rfl)).2
      h).1,
    ((canCaptureMove_spec captureScenario 1 6 3 4 PieceColor.White 0 0 (Or.inl rfl)).2
      h).2.1⟩

/-! ## `hasCaptureFrom` -/

set_option maxRecDepth 100000 in
/-- C7, counterexample: on the opening position the cell (0,4) is empty, so
`hasCaptureFrom 0 4` is false, yet `canCaptureMove` called with the colour stored
there (`None`) accepts the jump (0,4)→(2,6) over the empty cell (1,5). -/
theorem hasCaptureFrom_empty_cell_counterexample :
    ¬(hasCaptureFrom Board.new 0 4 = true ↔
      ((canCaptureMove Board.new 0 4 (0 + 2) (4 + 2) (get Board.new 0 4).color 0 0).1
          = true ∨
        (canCaptureMove Board.new 0 4 (0 + 2) (4 + -2) (get Board.new 0 4).color 0 0).1
          = true ∨
        (canCaptureMove Board.new 0 4 (0 + -2) (4 + 2) (get Board.new 0 4).color 0 0).1
          = true ∨
        (canCaptureMove Board.new 0 4 (0 + -2) (4 + -2) (get Board.new 0 4).color 0 0).1
          = true)) := by
  decide

/-- C7, amended: for every board and every cell (in range or not), `hasCaptureFrom`
returns true exactly when the colour stored at the cell is not `None` and at least one
of the four calls of `canCaptureMove` to the two-square diagonal destinations, made
with that colour, returns true. -/
theorem hasCaptureFrom_spec (b : Board) (x y c0 c1 : Int) :
    hasCaptureFrom b x y = true ↔
      (get b x y).color ≠ PieceColor.None ∧
      ((canCaptureMove b x y (x + 2) (y + 2) (get b x y).color c0 c1).1 = true ∨
        (canCaptureMove b x y (x + 2) (y + -2) (get b x y).color c0 c1).1 = true ∨
        (canCaptureMove b x y (x + -2) (y + 2) (get b x y).color c0 c1).1 = true ∨
        (canCaptureMove b x y (x + -2) (y + -2) (get b x y).color c0 c1).1 = true) := by
  have e : ∀ tx ty : Int, (canCaptureMove b x y tx ty (get b x y).color c0 c1).1 =
      (canCaptureMove b x y tx ty (get b x y).color 0 0).1 :=
    fun tx ty => canCaptureMove_fst_indep b x y tx ty _ c0 c1 0 0
  simp only [e]
  by_cases hin : isInside x y = true
  · by_cases hc : (get b x y).color = PieceColor.None
    · simp [hasCaptureFrom, hin, hc]
    · simp [hasCaptureFrom, hin, hc, deltas]
  · have hin' : isInside x y = false := by simpa using hin
    have hg := get_outside b x y hin'
    simp [hasCaptureFrom, hin', hg, Piece.empty]

/-! ## `move` against the two predicates -/

/-- C8: for every board, all integer coordinates and every player value, `move`
returns success exactly when, on the board before the call, `canSimpleMove` or
`canCaptureMove` returns true; on success `didCapture` is true exactly when
`canCaptureMove` returned true. -/
theorem move_iff_predicates (b : Board) (fromX fromY toX toY : Int)
    (player : PieceColor) (c0 c1 : Int) :
    ((move b fromX fromY toX toY player).ok = true ↔
      canSimpleMove b fromX fromY toX toY player = true ∨
        (canCaptureMove b fromX fromY toX toY player c0 c1).1 = true) ∧
    ((move b fromX fromY toX toY player).ok = true →
      ((move b fromX fromY toX toY player).didCapture = true ↔
        (canCaptureMove b fromX fromY toX toY player c0 c1).1 = true)) := by
  rw [canCaptureMove_fst_indep b fromX fromY toX toY player c0 c1 0 0]
  constructor
  · constructor
    · intro h
      rcases move_ok_cases b fromX fromY toX toY player h with ⟨hc, -⟩ | ⟨hs, -, -⟩
      · exact Or.inr hc
      · exact Or.inl hs
    · rintro (hs | hc)
      · rw [move_of_simple _ _ _ _ _ _ hs, coronacion_ok]
      · rw [move_of_capture _ _ _ _ _ _ hc, coronacion_ok]
  · intro h
    rcases move_ok_cases b fromX fromY toX toY player h with ⟨hc, hd⟩ | ⟨-, hc, hd⟩
    · simp [hc, hd]
    · simp [hc, hd]

set_option maxRecDepth 100000 in
/-- Witness for C8: the jump (1,6)→(3,4) of the capture scenario is accepted by
`canCaptureMove`, hence by `move`, which reports a capture. -/
theorem move_iff_predicates_witness :
    (move captureScenario 1 6 3 4 PieceColor.White).ok = true ∧
    (move captureScenario 1 6 3 4 PieceColor.White).didCapture = true :=
  have hc : (canCaptureMove captureScenario 1 6 3 4 PieceColor.White 0 0).1 = true := by
    decide
  have h : (move captureScenario 1 6 3 4 PieceColor.White).ok = true :=
    (move_iff_predicates captureScenario 1 6 3 4 PieceColor.White 0 0).1.2 (Or.inr hc)
  ⟨h, ((move_iff_predicates captureScenario 1 6 3 4 PieceColor.White 0 0).2 h).2 hc⟩

/-! ## Properties of `init` -/

/-- C9: whatever the board held before, after `init` each in-range cell `(x,y)` holds
a non-king Black piece if `x+y` is odd and `0 ≤ y ≤ 3`, a non-king White piece if
`x+y` is odd and `6 ≤ y ≤ 9`, and the empty piece otherwise; the result does not
depend on the prior contents. -/
theorem init_cells (b c : Board) (x y : Int) (hx : 0 ≤ x ∧ x < 10)
    (hy : 0 ≤ y ∧ y < 10) :
    init b = init c ∧
    get (init b) x y =
      if (x + y) % 2 = 1 ∧ 0 ≤ y ∧ y ≤ 3 then ⟨PieceColor.Black, false⟩
      else if (x + y) % 2 = 1 ∧ 6 ≤ y ∧ y ≤ 9 then ⟨PieceColor.White, false⟩
      else ⟨PieceColor.None, false⟩ := by
  refine ⟨by rw [init_eq, init_eq], ?_⟩
  rw [init_eq, get_initBoard x y hx hy]
  have e1 : (0 ≤ y ∧ y ≤ 3) ↔ y ≤ 3 := by omega
  have e2 : (6 ≤ y ∧ y ≤ 9) ↔ 6 ≤ y := by omega
  simp only [e1, e2]

/-- Witness for C9: re-initialising the capture scenario puts a White man on (1,6). -/
theorem init_cells_witness :
    get (init captureScenario) 1 6 = ⟨PieceColor.White, false⟩ := by
  have h := (init_cells captureScenario Board.new 1 6 (by decide) (by decide)).2
  simpa using h

set_option maxRecDepth 100000 in
/-- C10: after `init` the board has exactly 40 non-empty cells, exactly 20 White and
exactly 20 Black; no non-empty cell is a king, every non-empty cell is on a dark
square (`x+y` odd), and rows 4 and 5 are entirely empty. -/
theorem init_counts (b : Board) :
    countPieces (init b) = 40 ∧
    countColor (init b) PieceColor.White = 20 ∧
    countColor (init b) PieceColor.Black = 20 ∧
    (∀ x y : Int, (get (init b) x y).color ≠ PieceColor.None →
      (get (init b) x y).isKing = false ∧ (x + y) % 2 = 1) ∧
    (∀ x : Int, get (init b) x 4 = ⟨PieceColor.None, false⟩ ∧
      get (init b) x 5 = ⟨PieceColor.None, false⟩) := by
  rw [init_eq]
  refine ⟨by decide, by decide, by decide, ?_, ?_⟩
  · intro x y hne
    by_cases hin : isInside x y = true
    · have i := (isInside_iff x y).1 hin
      rw [get_initBoard x y ⟨i.1, i.2.1⟩ ⟨i.2.2.1, i.2.2.2⟩] at hne ⊢
      split_ifs at hne ⊢ with h1 h2
      · exact ⟨rfl, h1.1⟩
      · exact ⟨rfl, h2.1⟩
      · exact absurd rfl hne
    · rw [get_outside _ _ _ (by simpa using hin)] at hne
      exact absurd rfl hne
  · intro x
    by_cases hin : 0 ≤ x ∧ x < 10
    · rw [get_initBoard x 4 hin (by decide), get_initBoard x 5 hin (by decide)]
      simp
    · have h4 : isInside x 4 = false := by
        rw [← Bool.not_eq_true, isInside_iff]; omega
      have h5 : isInside x 5 = false := by
        rw [← Bool.not_eq_true, isInside_iff]; omega
      rw [get_outside _ _ _ h4, get_outside _ _ _ h5]
      exact ⟨rfl, rfl⟩

/-- Witness for C10: on a freshly initialised board the piece on (1,0) is a man on a
dark square. -/
theorem init_counts_witness :
    (get (init Board.new) 1 0).isKing = false ∧ ((1 : Int) + 0) % 2 = 1 :=
  (init_counts Board.new).2.2.2.1 1 0 (by rw [init_eq]; decide)

/-! ## Accessors, output cells and rejected moves -/

/-- C11: for an out-of-range `(x,y)`, `get` returns the empty piece and `set` leaves
the board unchanged; for an in-range `(x,y)`, `get` returns the stored cell and
`set x y p` makes `get x y = p` while leaving every other cell unchanged. -/
theorem get_set_contract (b : Board) (x y : Int) (p : Piece) :
    (¬(0 ≤ x ∧ x < 10 ∧ 0 ≤ y ∧ y < 10) →
      get b x y = ⟨PieceColor.None, false⟩ ∧ set b x y p = b) ∧
    ((0 ≤ x ∧ x < 10 ∧ 0 ≤ y ∧ y < 10) →
      (∀ i j : Fin SIZE, (i.val : Int) = x → (j.val : Int) = y → get b x y = b i j) ∧
      get (set b x y p) x y = p ∧
      (∀ x1 y1 : Int, ¬(x1 = x ∧ y1 = y) → get (set b x y p) x1 y1 = get b x1 y1) ∧
      (∀ i j : Fin SIZE, ¬((i.val : Int) = x ∧ (j.val : Int) = y) →
        set b x y p i j = b i j)) := by
  constructor
  · intro hout
    have hin : isInside x y = false := by
      rw [← Bool.not_eq_true, isInside_iff]; exact hout
    exact ⟨get_outside b x y hin, by simp [set, hin]⟩
  · intro hr
    have hin : isInside x y = true := (isInside_iff x y).2 hr
    refine ⟨?_, ?_, ?_, ?_⟩
    · intro i j hi hj
      subst hi hj
      simp [get, hin]
    · rw [get_set]; simp [hin]
    · intro x1 y1 hne
      rw [get_set]; simp [hne]
    · intro i j hne
      simp [set, hin, write, hne]

/-- Witness for C11: writing a Black man on (2,5) of the opening position. -/
theorem get_set_contract_witness :
    get (set Board.new 2 5 ⟨PieceColor.Black, false⟩) 2 5 = ⟨PieceColor.Black, false⟩ ∧
    set Board.new (-1) 5 ⟨PieceColor.Black, false⟩ = Board.new :=
  ⟨((get_set_contract Board.new 2 5 ⟨PieceColor.Black, false⟩).2 (by decide)).2.1,
    ((get_set_contract Board.new (-1) 5 ⟨PieceColor.Black, false⟩).1 (by decide)).2⟩

set_option maxRecDepth 100000 in
/-- C12, counterexample: on the opening position the jump (1,6)→(3,4) has valid
geometry, but called for Black (the source piece is White) `canCaptureMove` returns
false and leaves `capX = capY = 7` as they were instead of the midpoint (2,5). -/
theorem canCaptureMove_outputs_counterexample :
    ((3 : Int) - 1).natAbs = 2 ∧ ((4 : Int) - 6).natAbs = 2 ∧
    (canCaptureMove Board.new 1 6 3 4 PieceColor.Black 7 7).2 = (7, 7) ∧
    (canCaptureMove Board.new 1 6 3 4 PieceColor.Black 7 7).2 ≠
      (((1 : Int) + 3).tdiv 2, ((6 : Int) + 4).tdiv 2) := by
  decide

/-- C12, amended: for coordinates with `|toX-fromX| = 2` and `|toY-fromY| = 2`, if
both cells are in bounds, the source cell has the player's colour and the destination
cell is empty, then after the call `(capX, capY)` is the midpoint
`((fromX+toX)/2, (fromY+toY)/2)` whether the call returns true or false and whatever
the outputs held before; if one of these three conditions fails, the call returns
false and `capX`, `capY` keep the values they held before. -/
theorem canCaptureMove_outputs (b : Board) (fromX fromY toX toY : Int)
    (player : PieceColor) (c0 c1 : Int)
    (hdx : |toX - fromX| = 2) (hdy : |toY - fromY| = 2) :
    (((0 ≤ fromX ∧ fromX < 10 ∧ 0 ≤ fromY ∧ fromY < 10) ∧
        (0 ≤ toX ∧ toX < 10 ∧ 0 ≤ toY ∧ toY < 10) ∧
        (get b fromX fromY).color = player ∧
        (get b toX toY).color = PieceColor.None) →
      (canCaptureMove b fromX fromY toX toY player c0 c1).2 =
        ((fromX + toX).tdiv 2, (fromY + toY).tdiv 2)) ∧
    (¬((0 ≤ fromX ∧ fromX < 10 ∧ 0 ≤ fromY ∧ fromY < 10) ∧
        (0 ≤ toX ∧ toX < 10 ∧ 0 ≤ toY ∧ toY < 10) ∧
        (get b fromX fromY).color = player ∧
        (get b toX toY).color = PieceColor.None) →
      (canCaptureMove b fromX fromY toX toY player c0 c1).1 = false ∧
      (canCaptureMove b fromX fromY toX toY player c0 c1).2 = (c0, c1)) := by
  have a1 : (toX - fromX).natAbs = 2 := by
    rw [Int.abs_eq_natAbs] at hdx; omega
  have a2 : (toY - fromY).natAbs = 2 := by
    rw [Int.abs_eq_natAbs] at hdy; omega
  rw [← isInside_iff, ← isInside_iff]
  constructor
  · rintro ⟨h1, h2, h3, h4⟩
    simp only [canCaptureMove, h1, h2, h3, h4, a1, a2]
    split_ifs <;> first | rfl | simp_all
  · intro hn
    simp only [canCaptureMove]
    split_ifs <;> first | exact ⟨rfl, rfl⟩ | (exfalso; simp_all)

set_option maxRecDepth 100000 in
/-- Witness for C12: on the opening position White's jump (1,6)→(3,4) over the empty
cell (2,5) is refused, yet the outputs are the midpoint. -/
theorem canCaptureMove_outputs_witness :
    (canCaptureMove Board.new 1 6 3 4 PieceColor.White 7 7).1 = false ∧
    (canCaptureMove Board.new 1 6 3 4 PieceColor.White 7 7).2 =
      (((1 : Int) + 3).tdiv 2, ((6 : Int) + 4).tdiv 2) :=
  ⟨by decide,
    (canCaptureMove_outputs Board.new 1 6 3 4 PieceColor.White 7 7 (by decide)
      (by decide)).1 (by decide)⟩

set_option maxRecDepth 100000 in
/-- C13, counterexample: on the opening position the cell (0,4) is empty (colour
`None`), yet `move` called with player `None` from (0,4) to (1,5) returns success. -/
theorem move_empty_source_counterexample :
    (get Board.new 0 4).color = PieceColor.None ∧
    (move Board.new 0 4 1 5 PieceColor.None).ok = true := by
  decide

/-- C13, amended: for every board, all coordinates and every player value, if the
colour of the source cell differs from `player` then `move` returns failure; whenever
`move` returns success the source cell had colour `player` before the call, so for
`player` White or Black it held a White or Black piece and an empty source cell is
rejected. -/
theorem move_source_colour (b : Board) (fromX fromY toX toY : Int)
    (player : PieceColor) :
    ((get b fromX fromY).color ≠ player →
      (move b fromX fromY toX toY player).ok = false) ∧
    ((move b fromX fromY toX toY player).ok = true →
      (get b fromX fromY).color = player) ∧
    ((player = PieceColor.White ∨ player = PieceColor.Black) →
      (get b fromX fromY).color = PieceColor.None →
      (move b fromX fromY toX toY player).ok = false) := by
  have key : (move b fromX fromY toX toY player).ok = true →
      (get b fromX fromY).color = player := by
    intro h
    rcases move_ok_cases b fromX fromY toX toY player h with ⟨hc, -⟩ | ⟨hs, -, -⟩
    · exact ((canCaptureMove_iff _ _ _ _ _ _ _ _).1 hc).2.2.1
    · exact ((canSimpleMove_iff _ _ _ _ _ _).1 hs).2.2.1
  refine ⟨?_, key, ?_⟩
  · intro hne
    rw [← Bool.not_eq_true]
    exact fun h => hne (key h)
  · intro hp hnone
    rw [← Bool.not_eq_true]
    intro h
    have := key h
    rw [hnone] at this
    rcases hp with e | e <;> rw [e] at this <;> exact absurd this (by decide)

set_option maxRecDepth 100000 in
/-- Witness for C13: Black may not move the White piece on (1,6). -/
theorem move_source_colour_witness :
    (move Board.new 1 6 2 5 PieceColor.Black).ok = false :=
  (move_source_colour Board.new 1 6 2 5 PieceColor.Black).1 (by decide)

/-- C14: when the displacement is neither a one-square diagonal step nor a two-square
diagonal jump, `move` returns failure and the board is unchanged. -/
theorem move_other_shape_fails (b : Board) (fromX fromY toX toY : Int)
    (player : PieceColor)
    (h1 : ¬(|toX - fromX| = 1 ∧ |toY - fromY| = 1))
    (h2 : ¬(|toX - fromX| = 2 ∧ |toY - fromY| = 2)) :
    (move b fromX fromY toX toY player).ok = false ∧
    (move b fromX fromY toX toY player).board = b := by
  rw [Int.abs_eq_natAbs, Int.abs_eq_natAbs] at h1 h2
  have hs : canSimpleMove b fromX fromY toX toY player = false := by
    rw [← Bool.not_eq_true, canSimpleMove_iff]
    rintro ⟨-, -, -, -, h5, h6, -⟩
    exact h1 ⟨by omega, by omega⟩
  have hc : (canCaptureMove b fromX fromY toX toY player 0 0).1 = false := by
    rw [← Bool.not_eq_true, canCaptureMove_iff]
    rintro ⟨-, -, -, -, h5, h6, -⟩
    exact h2 ⟨by omega, by omega⟩
  rw [move_of_neither b fromX fromY toX toY player hs hc]
  exact ⟨rfl, rfl⟩

/-- Witness for C14: the three-square diagonal (1,6)→(4,3) on the opening position. -/
theorem move_other_shape_fails_witness :
    (move Board.new 1 6 4 3 PieceColor.White).ok = false ∧
    (move Board.new 1 6 4 3 PieceColor.White).board = Board.new :=
  move_other_shape_fails Board.new 1 6 4 3 PieceColor.White (by decide) (by decide)

/-! ## Invariants of the board -/

theorem get_coe (b : Board) (i j : Fin SIZE) : get b (i.val : Int) (j.val : Int) = b i j := by
  have hin : isInside (i.val : Int) (j.val : Int) = true := by
    rw [isInside_iff]
    have hi := i.isLt
    have hj := j.isLt
    simp only [SIZE] at hi hj
    omega
  simp [get, hin]

theorem get_eq_cell (b : Board) (x y : Int) (h : isInside x y = true) :
    ∃ i j : Fin SIZE, (i.val : Int) = x ∧ (j.val : Int) = y ∧ get b x y = b i j := by
  have hh := (isInside_iff x y).1 h
  refine ⟨⟨x.toNat, toNat_lt_of_isInside_left h⟩, ⟨y.toNat, toNat_lt_of_isInside_right h⟩,
    Int.toNat_of_nonneg hh.1, Int.toNat_of_nonneg hh.2.2.1, ?_⟩
  simp [get, h]

theorem move_ok_geometry (b : Board) (fromX fromY toX toY : Int) (player : PieceColor)
    (h : (move b fromX fromY toX toY player).ok = true) :
    isInside fromX fromY = true ∧ isInside toX toY = true ∧
    (get b fromX fromY).color = player ∧ (get b toX toY).color = PieceColor.None ∧
    (((toX - fromX).natAbs = 1 ∧ (toY - fromY).natAbs = 1) ∨
      ((toX - fromX).natAbs = 2 ∧ (toY - fromY).natAbs = 2)) := by
  rcases move_ok_cases b fromX fromY toX toY player h with ⟨hc, -⟩ | ⟨hs, -, -⟩
  · obtain ⟨h1, h2, h3, h4, h5, h6, -, -⟩ := (canCaptureMove_iff _ _ _ _ _ _ _ _).1 hc
    exact ⟨h1, h2, h3, h4, Or.inr ⟨h5, h6⟩⟩
  · obtain ⟨h1, h2, h3, h4, h5, h6, -⟩ := (canSimpleMove_iff _ _ _ _ _ _).1 hs
    exact ⟨h1, h2, h3, h4, Or.inl ⟨h5, h6⟩⟩

theorem onDarkSquares_get (b : Board) (h : onDarkSquares b) (x y : Int)
    (hne : (get b x y).color ≠ PieceColor.None) : (x + y) % 2 = 1 := by
  by_cases hin : isInside x y = true
  · obtain ⟨i, j, rfl, rfl, e⟩ := get_eq_cell b x y hin
    rw [e] at hne
    have := h i j hne
    omega
  · rw [get_outside b x y (by simpa using hin)] at hne
    exact absurd rfl hne

theorem onDarkSquares_move (b : Board) (fromX fromY toX toY : Int) (player : PieceColor)
    (h : onDarkSquares b) : onDarkSquares (move b fromX fromY toX toY player).board := by
  by_cases hok : (move b fromX fromY toX toY player).ok = true
  · obtain ⟨-, -, -, -, hg⟩ := move_ok_geometry b fromX fromY toX toY player hok
    intro i j hne
    rw [← get_coe (move b fromX fromY toX toY player).board i j,
      move_ok_get b fromX fromY toX toY player hok] at hne
    split_ifs at hne with e1 e2 e3
    · have hs := onDarkSquares_get b h fromX fromY hne
      obtain ⟨ex, ey⟩ := e1
      omega
    · exact absurd rfl hne
    · exact absurd rfl hne
    · have := onDarkSquares_get b h _ _ hne
      omega
  · rw [(move_fail_board b fromX fromY toX toY player (by simpa using hok)).1]
    exact h

set_option maxRecDepth 100000 in
theorem onDarkSquares_initBoard : onDarkSquares initBoard := by
  decide

set_option maxRecDepth 100000 in
theorem noManOnLastRow_initBoard : noManOnLastRow initBoard := by
  decide

theorem noManOnLastRow_move (b : Board) (fromX fromY toX toY : Int)
    (player : PieceColor) (h : noManOnLastRow b) :
    noManOnLastRow (move b fromX fromY toX toY player).board := by
  by_cases hok : (move b fromX fromY toX toY player).ok = true
  · have hk := move_ok_becameKing b fromX fromY toX toY player hok
    intro i j
    rw [← get_coe (move b fromX fromY toX toY player).board i j,
      move_ok_get b fromX fromY toX toY player hok]
    split_ifs with e1 e2 e3
    · obtain ⟨-, ey⟩ := e1
      cases hb : (move b fromX fromY toX toY player).becameKing
      · have hn := (not_congr hk).1 (by simp [hb])
        constructor
        · rintro ⟨c1, c2, c3⟩
          exact hn ⟨by simpa using c2, Or.inl ⟨c1, by omega⟩⟩
        · rintro ⟨c1, c2, c3⟩
          exact hn ⟨by simpa using c2, Or.inr ⟨c1, by omega⟩⟩
      · simp
    · simp [Piece.empty]
    · simp [Piece.empty]
    · rw [get_coe]
      exact h i j
  · rw [(move_fail_board b fromX fromY toX toY player (by simpa using hok)).1]
    exact h

theorem move_ok_forward (b : Board) (fromX fromY toX toY : Int) (player : PieceColor)
    (h : (move b fromX fromY toX toY player).ok = true)
    (hk : (get b fromX fromY).isKing = false) :
    ((get b fromX fromY).color = PieceColor.White → toY < fromY) ∧
    ((get b fromX fromY).color = PieceColor.Black → fromY < toY) := by
  rcases move_ok_cases b fromX fromY toX toY player h with ⟨hc, -⟩ | ⟨hs, -, -⟩
  · obtain ⟨-, -, -, -, -, -, -, h8⟩ := (canCaptureMove_iff _ _ _ _ _ _ _ _).1 hc
    rw [hk] at h8
    constructor
    · intro hw
      simp [hw] at h8
      omega
    · intro hb
      simp [hb] at h8
      omega
  · obtain ⟨-, -, -, -, -, -, h8⟩ := (canSimpleMove_iff _ _ _ _ _ _).1 hs
    rw [hk] at h8
    constructor
    · intro hw
      simp [hw] at h8
      omega
    · intro hb
      simp [hb] at h8
      omega

/-- C15: if every non-empty cell of the board is on a dark square (`x+y` odd), the
same holds of the board after any call of `move` (any coordinates, any player,
successful or not); and the board produced by `init` satisfies the invariant. -/
theorem dark_squares_invariant (b c : Board) (fromX fromY toX toY : Int)
    (player : PieceColor) (h : onDarkSquares b) :
    onDarkSquares (move b fromX fromY toX toY player).board ∧ onDarkSquares (init c) :=
  ⟨onDarkSquares_move b fromX fromY toX toY player h,
    by rw [init_eq]; exact onDarkSquares_initBoard⟩

set_option maxRecDepth 100000 in
/-- Witness for C15: the capture of the capture scenario keeps all pieces on dark
squares. -/
theorem dark_squares_invariant_witness :
    onDarkSquares captureScenario ∧
    onDarkSquares (move captureScenario 1 6 3 4 PieceColor.White).board :=
  have h : onDarkSquares captureScenario := by decide
  ⟨h, (dark_squares_invariant captureScenario Board.new 1 6 3 4 PieceColor.White h).1⟩

/-- C16: in every successful `move` whose source piece is not a king, `toY < fromY`
if the piece is White and `toY > fromY` if it is Black (simple moves and captures
alike); a king, of either colour, can succeed both with `toY < fromY` and with
`toY > fromY`. -/
theorem man_moves_forward :
    (∀ (b : Board) (fromX fromY toX toY : Int) (player : PieceColor),
      (move b fromX fromY toX toY player).ok = true →
      (get b fromX fromY).isKing = false →
      ((get b fromX fromY).color = PieceColor.White → toY < fromY) ∧
      ((get b fromX fromY).color = PieceColor.Black → toY > fromY)) ∧
    (∀ c : PieceColor, c = PieceColor.White ∨ c = PieceColor.Black →
      (get (kingScenario c) 4 4).color = c ∧ (get (kingScenario c) 4 4).isKing = true ∧
      (move (kingScenario c) 4 4 5 3 c).ok = true ∧
      (move (kingScenario c) 4 4 5 5 c).ok = true) := by
  refine ⟨fun b fromX fromY toX toY player h hk =>
    move_ok_forward b fromX fromY toX toY player h hk, ?_⟩
  rintro c (rfl | rfl) <;> decide

set_option maxRecDepth 100000 in
/-- Witness for C16: the White man stepping (1,6)→(2,5) on the opening position goes
to a smaller row. -/
theorem man_moves_forward_witness :
    (move Board.new 1 6 2 5 PieceColor.White).ok = true ∧
    (get Board.new 1 6).isKing = false ∧
    (get Board.new 1 6).color = PieceColor.White ∧ (5 : Int) < 6 :=
  have h : (move Board.new 1 6 2 5 PieceColor.White).ok = true := by decide
  have hk : (get Board.new 1 6).isKing = false := by decide
  have hw : (get Board.new 1 6).color = PieceColor.White := by decide
  ⟨h, hk, hw, (man_moves_forward.1 Board.new 1 6 2 5 PieceColor.White h hk).1 hw⟩

/-- C19: the board produced by `init` has no non-king White piece on row 0 and no
non-king Black piece on row 9, and for every board with that property the board after
any call of `move` (any coordinates, any player, successful or not) has it too. -/
theorem no_man_on_last_row (b c : Board) (fromX fromY toX toY : Int)
    (player : PieceColor) (h : noManOnLastRow b) :
    noManOnLastRow (init c) ∧
    noManOnLastRow (move b fromX fromY toX toY player).board :=
  ⟨by rw [init_eq]; exact noManOnLastRow_initBoard,
    noManOnLastRow_move b fromX fromY toX toY player h⟩

set_option maxRecDepth 100000 in
/-- Witness for C19: after the White man of the promotion scenario reaches row 0 no
unpromoted piece stands on a promotion row. -/
theorem no_man_on_last_row_witness :
    noManOnLastRow promotionScenario ∧
    noManOnLastRow (move promotionScenario 1 1 2 0 PieceColor.White).board :=
  have h : noManOnLastRow promotionScenario := by decide
  ⟨h, (no_man_on_last_row promotionScenario Board.new 1 1 2 0 PieceColor.White h).2⟩

/-! ## The turn coordinator -/

theorem move_ok_dest_color (b : Board) (fromX fromY toX toY : Int) (player : PieceColor)
    (h : (move b fromX fromY toX toY player).ok = true) :
    (get (move b fromX fromY toX toY player).board toX toY).color = player := by
  rw [move_ok_get b fromX fromY toX toY player h]
  simp [(move_ok_geometry b fromX fromY toX toY player h).2.2.1]

theorem click_wellFormed (g : Game) (cellX cellY : Int) (h : g.wellFormed) :
    (click g cellX cellY).wellFormed := by
  obtain ⟨hp, hs⟩ := h
  unfold click
  by_cases hin : cellX ≥ 0 ∧ cellX < (SIZE : Int) ∧ cellY ≥ 0 ∧ cellY < (SIZE : Int)
  · rw [if_pos hin]
    have hin' : 0 ≤ cellX ∧ cellX < 10 ∧ 0 ≤ cellY ∧ cellY < 10 := by
      simp only [SIZE] at hin
      omega
    by_cases hsel : g.hasSelected = true
    · simp only [hsel, Bool.not_true, Bool.false_eq_true, if_false]
      by_cases hok :
          (move g.board g.selectedX g.selectedY cellX cellY g.currentPlayer).ok = true
      · simp only [hok, if_true]
        by_cases hc :
            ((move g.board g.selectedX g.selectedY cellX cellY g.currentPlayer).didCapture &&
              hasCaptureFrom
                (move g.board g.selectedX g.selectedY cellX cellY g.currentPlayer).board
                cellX cellY) = true
        · rw [if_pos hc]
          exact ⟨hp, fun _ => ⟨hin', move_ok_dest_color _ _ _ _ _ _ hok⟩⟩
        · rw [if_neg hc]
          refine ⟨?_, fun hf => absurd hf Bool.false_ne_true⟩
          by_cases hw : g.currentPlayer = PieceColor.White
          · simp [hw]
          · simp [hw]
      · have hok' :
            (move g.board g.selectedX g.selectedY cellX cellY g.currentPlayer).ok = false := by
          simpa using hok
        simp only [hok', Bool.false_eq_true, if_false]
        exact ⟨hp, fun hf => absurd hf Bool.false_ne_true⟩
    · have hsel' : g.hasSelected = false := by simpa using hsel
      simp only [hsel', Bool.not_false, if_true]
      split_ifs with hc
      · exact ⟨hp, fun _ => ⟨hin', hc⟩⟩
      · exact ⟨hp, hs⟩
  · rw [if_neg hin]
    exact ⟨hp, hs⟩

theorem clicks_wellFormed (cs : List (Int × Int)) (g : Game) (h : g.wellFormed) :
    (clicks g cs).wellFormed := by
  induction cs generalizing g with
  | nil => exact h
  | cons c cs ih =>
    exact ih (click g c.1 c.2) (click_wellFormed g c.1 c.2 h)

/-- C17: from a state with an active selection, on a click at an in-range cell
`(cx,cy)`: if `move` from the selected cell succeeds with `didCapture` and
`hasCaptureFrom (cx,cy)` holds on the resulting board, the player to move is unchanged
and the selection becomes `(cx,cy)`; if `move` succeeds and `hasCaptureFrom (cx,cy)`
is false, the selection is cleared and the player to move becomes the opponent; if
`move` fails, the selection is cleared and the player to move and the board are
unchanged. -/
theorem click_with_selection (g : Game) (cx cy : Int)
    (hsel : g.hasSelected = true)
    (hin : 0 ≤ cx ∧ cx < 10 ∧ 0 ≤ cy ∧ cy < 10) :
    ((move g.board g.selectedX g.selectedY cx cy g.currentPlayer).ok = true →
      (move g.board g.selectedX g.selectedY cx cy g.currentPlayer).didCapture = true →
      hasCaptureFrom (move g.board g.selectedX g.selectedY cx cy g.currentPlayer).board
        cx cy = true →
      (click g cx cy).currentPlayer = g.currentPlayer ∧
      (click g cx cy).hasSelected = true ∧
      (click g cx cy).selectedX = cx ∧ (click g cx cy).selectedY = cy ∧
      (click g cx cy).board =
        (move g.board g.selectedX g.selectedY cx cy g.currentPlayer).board) ∧
    ((move g.board g.selectedX g.selectedY cx cy g.currentPlayer).ok = true →
      hasCaptureFrom (move g.board g.selectedX g.selectedY cx cy g.currentPlayer).board
        cx cy = false →
      (click g cx cy).hasSelected = false ∧
      (g.currentPlayer = PieceColor.White →
        (click g cx cy).currentPlayer = PieceColor.Black) ∧
      (g.currentPlayer = PieceColor.Black →
        (click g cx cy).currentPlayer = PieceColor.White) ∧
      (click g cx cy).board =
        (move g.board g.selectedX g.selectedY cx cy g.currentPlayer).board) ∧
    ((move g.board g.selectedX g.selectedY cx cy g.currentPlayer).ok = false →
      (click g cx cy).hasSelected = false ∧
      (click g cx cy).currentPlayer = g.currentPlayer ∧
      (click g cx cy).board = g.board) := by
  have hin' : cx ≥ 0 ∧ cx < (SIZE : Int) ∧ cy ≥ 0 ∧ cy < (SIZE : Int) := by
    simp only [SIZE]
    omega
  refine ⟨?_, ?_, ?_⟩
  · intro hok hd hc
    simp [click, hin', hsel, hok, hd, hc]
  · intro hok hc
    simp only [click, hin', hsel, hok, hc]
    refine ⟨by simp, ?_, ?_, by simp⟩
    · intro hw
      simp [hw]
    · intro hb
      simp [hb]
  · intro hok
    have hb := (move_fail_board _ _ _ _ _ _ hok).1
    simp [click, hin', hsel, hok, hb]

set_option maxRecDepth 100000 in
/-- Witness for C17: with (1,6) selected on the capture scenario, White's click on
(3,4) captures; no further capture is available there, so the turn passes to Black. -/
theorem click_with_selection_witness :
    (click ⟨captureScenario, PieceColor.White, true, 1, 6⟩ 3 4).hasSelected = false ∧
    (click ⟨captureScenario, PieceColor.White, true, 1, 6⟩ 3 4).currentPlayer =
      PieceColor.Black :=
  have h := (click_with_selection ⟨captureScenario, PieceColor.White, true, 1, 6⟩ 3 4
    rfl (by decide)).2.1 (by decide) (by decide)
  ⟨h.1, h.2.1 rfl⟩

/-- C20: in every state reached from the initial state (constructed board, White to
move, no selection) by any sequence of clicks on cells, the player to move is White
or Black, and whenever a selection is active the selected cell is in range and holds a
piece of the colour of the player to move. -/
theorem reachable_wellFormed (cs : List (Int × Int)) :
    (clicks Game.initial cs).wellFormed ∧
    ((clicks Game.initial cs).currentPlayer = PieceColor.White ∨
      (clicks Game.initial cs).currentPlayer = PieceColor.Black) :=
  have h : (clicks Game.initial cs).wellFormed :=
    clicks_wellFormed cs Game.initial
      ⟨Or.inl rfl, fun hf => absurd hf Bool.false_ne_true⟩
  ⟨h, h.1⟩

/-! ## Piece counts -/

theorem countColor_set (b : Board) (x y : Int) (p : Piece) (c : PieceColor)
    (hin : isInside x y = true) :
    countColor (set b x y p) c + (if (get b x y).color = c then 1 else 0) =
      countColor b c + (if p.color = c then 1 else 0) := by
  obtain ⟨i, j, hi, hj, e⟩ := get_eq_cell b x y hin
  have hs : ∀ s : Fin SIZE × Fin SIZE, s ≠ (i, j) →
      set b x y p s.1 s.2 = b s.1 s.2 := by
    intro s hne
    have : ¬((s.1.val : Int) = x ∧ (s.2.val : Int) = y) := by
      rintro ⟨e1, e2⟩
      apply hne
      ext
      · simp only; omega
      · simp only; omega
    simp [set, hin, write, this]
  have h0 : set b x y p i j = p := by
    simp [set, hin, write, hi, hj]
  simp only [countColor, Finset.card_filter]
  rw [← Finset.add_sum_erase _ _ (Finset.mem_univ (i, j)),
    ← Finset.add_sum_erase Finset.univ (fun s : Fin SIZE × Fin SIZE =>
      if (b s.1 s.2).color = c then 1 else 0) (Finset.mem_univ (i, j))]
  have hsum : ∑ s ∈ Finset.univ.erase (i, j),
      (if (set b x y p s.1 s.2).color = c then 1 else 0) =
      ∑ s ∈ Finset.univ.erase (i, j), (if (b s.1 s.2).color = c then 1 else 0) := by
    apply Finset.sum_congr rfl
    intro s hmem
    rw [hs s (Finset.ne_of_mem_erase hmem)]
  rw [hsum, e]
  simp only [h0]
  omega

theorem coronacion_count (b : Board) (toX toY : Int) (d : Bool) (c : PieceColor)
    (hin : isInside toX toY = true) :
    countColor (coronacion b toX toY d).board c = countColor b c := by
  have h1 := countColor_set b toX toY ⟨(get b toX toY).color, true⟩ c hin
  have h2 := countColor_set b toX toY (get b toX toY) c hin
  simp only [coronacion]
  split_ifs <;> first | rfl | (simp only at h1 ⊢; omega)

theorem move_count_simple (b : Board) (fromX fromY toX toY : Int) (player : PieceColor)
    (c : PieceColor) (hs : canSimpleMove b fromX fromY toX toY player = true) :
    countColor (move b fromX fromY toX toY player).board c = countColor b c := by
  obtain ⟨h1, h2, h3, h4, h5, h6, -⟩ := (canSimpleMove_iff _ _ _ _ _ _).1 hs
  have hne : fromX ≠ toX := by omega
  rw [move_of_simple _ _ _ _ _ _ hs, coronacion_count _ _ _ _ _ h2]
  have e1 := countColor_set b toX toY (get b fromX fromY) c h2
  have e2 := countColor_set (set b toX toY (get b fromX fromY)) fromX fromY Piece.empty c h1
  have g2 : get (set b toX toY (get b fromX fromY)) fromX fromY = get b fromX fromY := by
    rw [get_set]; simp [hne]
  rw [g2] at e2
  rw [h4] at e1
  have hcol : Piece.empty.color = PieceColor.None := rfl
  rw [hcol] at e2
  omega

theorem move_count_capture (b : Board) (fromX fromY toX toY : Int) (player : PieceColor)
    (c : PieceColor) (hc : (canCaptureMove b fromX fromY toX toY player 0 0).1 = true) :
    countColor (move b fromX fromY toX toY player).board c +
        (if opponentOf player = c then 1 else 0) =
      countColor b c + (if PieceColor.None = c then 1 else 0) := by
  obtain ⟨h1, h2, h3, h4, h5, h6, h7, -⟩ := (canCaptureMove_iff _ _ _ _ _ _ _ _).1 hc
  have i1 := (isInside_iff _ _).1 h1
  have i2 := (isInside_iff _ _).1 h2
  obtain ⟨-, m1, m2, m5, m6⟩ := jump_mid fromX toX ⟨i1.1, i1.2.1⟩ ⟨i2.1, i2.2.1⟩ h5
  obtain ⟨-, m3, m4, -, -⟩ :=
    jump_mid fromY toY ⟨i1.2.2.1, i1.2.2.2⟩ ⟨i2.2.2.1, i2.2.2.2⟩ h6
  have hm : isInside ((fromX + toX).tdiv 2) ((fromY + toY).tdiv 2) = true :=
    (isInside_iff _ _).2 ⟨m1, m2, m3, m4⟩
  have hne : fromX ≠ toX := by omega
  rw [move_of_capture _ _ _ _ _ _ hc, coronacion_count _ _ _ _ _ h2]
  have e1 := countColor_set b ((fromX + toX).tdiv 2) ((fromY + toY).tdiv 2) Piece.empty c hm
  have e2 := countColor_set
    (set b ((fromX + toX).tdiv 2) ((fromY + toY).tdiv 2) Piece.empty)
    toX toY (get b fromX fromY) c h2
  have e3 := countColor_set
    (set (set b ((fromX + toX).tdiv 2) ((fromY + toY).tdiv 2) Piece.empty)
      toX toY (get b fromX fromY)) fromX fromY Piece.empty c h1
  have g2 : get (set b ((fromX + toX).tdiv 2) ((fromY + toY).tdiv 2) Piece.empty)
      toX toY = get b toX toY := by
    rw [get_set]; simp [Ne.symm m6]
  have g3 : get (set (set b ((fromX + toX).tdiv 2) ((fromY + toY).tdiv 2) Piece.empty)
      toX toY (get b fromX fromY)) fromX fromY = get b fromX fromY := by
    rw [get_set, get_set]; simp [hne, Ne.symm m5]
  rw [g2, h4] at e2
  rw [g3] at e3
  rw [h7] at e1
  have hcol : Piece.empty.color = PieceColor.None := rfl
  rw [hcol] at e1 e3
  omega

/-- C18: for a player in {White, Black} and every successful `move`, the number of
cells holding the player's colour is the same before and after; the number of cells
holding the opponent's colour decreases by exactly 1 if `didCapture` is true and is
unchanged if `didCapture` is false. -/
theorem move_piece_counts (b : Board) (fromX fromY toX toY : Int)
    (player opp : PieceColor)
    (hp : (player = PieceColor.White ∧ opp = PieceColor.Black) ∨
      (player = PieceColor.Black ∧ opp = PieceColor.White))
    (h : (move b fromX fromY toX toY player).ok = true) :
    countColor (move b fromX fromY toX toY player).board player = countColor b player ∧
    ((move b fromX fromY toX toY player).didCapture = true →
      countColor (move b fromX fromY toX toY player).board opp + 1 = countColor b opp) ∧
    ((move b fromX fromY toX toY player).didCapture = false →
      countColor (move b fromX fromY toX toY player).board opp = countColor b opp) := by
  rcases move_ok_cases b fromX fromY toX toY player h with ⟨hc, hd⟩ | ⟨hs, -, hd⟩
  · have k1 := move_count_capture b fromX fromY toX toY player player hc
    have k2 := move_count_capture b fromX fromY toX toY player opp hc
    rcases hp with ⟨rfl, rfl⟩ | ⟨rfl, rfl⟩ <;>
      simp [opponentOf] at k1 k2 <;>
      exact ⟨k1, fun _ => k2, fun hf => by rw [hd] at hf; exact absurd hf (by decide)⟩
  · refine ⟨move_count_simple b fromX fromY toX toY player player hs, ?_, ?_⟩
    · intro hf
      rw [hd] at hf
      exact absurd hf (by decide)
    · intro _
      exact move_count_simple b fromX fromY toX toY player opp hs

set_option maxRecDepth 100000 in
/-- Witness for C18: the capture of the capture scenario keeps White's count and
removes one Black piece. -/
theorem move_piece_counts_witness :
    countColor (move captureScenario 1 6 3 4 PieceColor.White).board PieceColor.White =
      countColor captureScenario PieceColor.White ∧
    countColor (move captureScenario 1 6 3 4 PieceColor.White).board PieceColor.Black + 1 =
      countColor captureScenario PieceColor.Black :=
  have h := move_piece_counts captureScenario 1 6 3 4 PieceColor.White PieceColor.Black
    (Or.inl ⟨rfl, rfl⟩) (by decide)
  ⟨h.1, h.2.1 (by decide)⟩

end DAMASSMFL
